import Mathlib

/-!
# Verification of the python-proptest generator/shrinker core

Shallow embedding of the property-based-testing engine:

* the `Shrinkable` tree and the random-source interface (spec §3/§6; the
  Python classes `Shrinkable`/`Stream` and the `random.Random` consumer
  interface are not under `src/`, so they are modelled from the spec),
* the integral shrinker (`shrink_integral`/`binary_search_shrinkable`,
  modelled from spec §4.2 — `core/shrinker/integral.py` is not under `src/`),
* `transform.py` (`FilteredGenerator`, `FlatMappedGenerator`),
* `combinators.py` (`OneOfGenerator`, `ElementOfGenerator`),
* `shrinker/list.py` (`shrink_membership_wise`), `shrinker/pair.py`
  (`shrink_pair`), `generator/list.py` and `generator/dict.py` candidate
  builders, `core/shrinker.py` (`shrinkable_float`),
* `property.py` (`Property.for_all`, `Property._shrink_failing_inputs`).

Python's lazy `Stream` of shrink candidates is modelled as a finite `List`:
every code path touched by the claims materializes the stream via
`to_list()` / full iteration, and the spec requires recomputation to be
idempotent, so the list of forced elements is a faithful denotation.
-/

namespace PyProptest

/-- Modelled from the spec (§3 Data Model): `Shrinkable<T>` is "a value
paired with a lazy sequence of child Shrinkable<T>"; the Python class
(`core/shrinker/__init__.py`) is not under `src/`.  The child stream is
modelled as a finite list of already-forced children (spec §3: the tree is
finite along every traversed path and recomputation of the thunk is
idempotent). -/
inductive Shrinkable (α : Type) : Type
  | mk (value : α) (children : List (Shrinkable α))
deriving Repr

variable {α β γ : Type}

/-- The `value` field of a `Shrinkable`. -/
def Shrinkable.value : Shrinkable α → α
  | .mk v _ => v

/-- The forced shrink-candidate stream (`shrinks().to_list()`) of a
`Shrinkable`. -/
def Shrinkable.children : Shrinkable α → List (Shrinkable α)
  | .mk _ cs => cs

@[simp] theorem Shrinkable.value_mk (v : α) (cs : List (Shrinkable α)) :
    (Shrinkable.mk v cs).value = v := rfl

@[simp] theorem Shrinkable.children_mk (v : α) (cs : List (Shrinkable α)) :
    (Shrinkable.mk v cs).children = cs := rfl

mutual
/-- Values of all nodes of a shrink tree, root first, depth-first — the
set of values reachable by child-traversal paths from the root. -/
def Shrinkable.collect : Shrinkable α → List α
  | .mk v cs => v :: Shrinkable.collectList cs
/-- `Shrinkable.collect` mapped over a list of trees, concatenated. -/
def Shrinkable.collectList : List (Shrinkable α) → List α
  | [] => []
  | c :: cs => Shrinkable.collect c ++ Shrinkable.collectList cs
end

mutual
/-- Structure-preserving value map on a shrink tree (spec §4.1 `map`). -/
def Shrinkable.map (f : α → β) : Shrinkable α → Shrinkable β
  | .mk v cs => .mk (f v) (Shrinkable.mapList f cs)
/-- `Shrinkable.map` over a list of trees. -/
def Shrinkable.mapList (f : α → β) : List (Shrinkable α) → List (Shrinkable β)
  | [] => []
  | c :: cs => Shrinkable.map f c :: Shrinkable.mapList f cs
end

@[simp] theorem Shrinkable.value_map (f : α → β) (s : Shrinkable α) :
    (s.map f).value = f s.value := by
  cases s
  simp [Shrinkable.map]

/-!
## Random source

Modelled from the spec (§6 External Interfaces): the random source is "an
externally supplied sequential pseudo-random stream (uniform float in
[0,1), uniform integer in [a,b], ...)", consumed strictly sequentially
(§5).  It is modelled as two oracles indexed by a single draw-position
counter: position `s` holds the raw material for the `s`-th draw, whether
that draw is an integer or a float.
-/

/-- Modelled from the spec (§6): the pseudo-random source, as the raw
material of each successive draw.  `ints s` feeds an integer draw made at
position `s`, `floats s` feeds a float draw made at position `s`. -/
structure RandomSource where
  ints : ℕ → ℕ
  floats : ℕ → ℚ

/-- `rng.randint(a, b)` (inclusive bounds) performed at draw position `s`:
returns the drawn value and the advanced position.  The raw natural is
reduced into the range `[a, b]`. -/
def randintAt (src : RandomSource) (a b : ℤ) (s : ℕ) : ℤ × ℕ :=
  (a + (src.ints s : ℤ) % (b - a + 1), s + 1)

/-- `rng.random()` performed at draw position `s`. -/
def randomAt (src : RandomSource) (s : ℕ) : ℚ × ℕ :=
  (src.floats s, s + 1)

/-- A generator (spec §3): a stateless function from the random source to
a `Shrinkable`, threading the draw position explicitly. -/
def Gen (α : Type) : Type := RandomSource → ℕ → Shrinkable α × ℕ

/-!
## Integral shrinker

`core/shrinker/integral.py` (`binary_search_shrinkable`, `shrink_integral`)
is not under `src/` (only its tests and callers are), so it is modelled
from spec §4.2: "let `boundary` be whichever bound is closer to zero and
reachable (typically 0 if in range, else `min`), `distance = value -
boundary`.  Build a binary-range shrink over `distance`: the first
candidate is `boundary` (distance 0); subsequent candidates are produced
by repeated bisection between the last-explored lower candidate and
`distance`, each new candidate's own children continuing the bisection
between it and `distance`. ... the canonical 3-level shape for `d=8` is:
children `[0, 4→[2→[1], 3], 6→[5], 7]` ... Map `boundary +
candidate_distance` back into the value domain at every node."
-/

/-- Modelled from the spec (§4.2): the bisection lattice strictly between
`lo` and `hi` — candidate `mid = (lo+hi)/2`, whose own children continue
the bisection between `lo` and `mid`, followed by the lattice between
`mid` and `hi`.  `fuel` is only a termination device: the interval length
strictly decreases on each call, so any `fuel ≥ hi - lo` yields the full
lattice. -/
def binGenpos : ℕ → ℕ → ℕ → List (Shrinkable ℕ)
  | 0, _, _ => []
  | fuel + 1, lo, hi =>
    if lo + 1 ≥ hi then []
    else
      let mid := (lo + hi) / 2
      .mk mid (binGenpos fuel lo mid) :: binGenpos fuel mid hi

/-- Modelled from the spec (§4.2): binary-range shrink tree over a
distance `n`: root `n`, first candidate `0`, then the bisection lattice
between `0` and `n`. -/
def binarySearchShrinkable (n : ℕ) : Shrinkable ℕ :=
  .mk n (if n = 0 then [] else .mk 0 [] :: binGenpos n 0 n)

/-- Modelled from the spec (§4.2): `shrink_integral(value, min, max)` —
boundary selection, binary-range shrink of the distance, mapped back into
the value domain. -/
def shrinkIntegral (value minV maxV : ℤ) : Shrinkable ℤ :=
  let boundary : ℤ :=
    if minV ≤ 0 ∧ 0 ≤ maxV then 0 else if 0 < minV then minV else maxV
  let d : ℤ := value - boundary
  if 0 ≤ d then (binarySearchShrinkable d.toNat).map (fun k : ℕ => boundary + (k : ℤ))
  else (binarySearchShrinkable (-d).toNat).map (fun k : ℕ => boundary - (k : ℤ))

/-- Modelled from the spec (§4.2, §4.4): the bounded integer generator
(`generator/integral.py` is not under `src/`) — one `randint(min, max)`
draw, then the integral shrink tree for the drawn value. -/
def intGen (minV maxV : ℤ) : Gen ℤ := fun src s =>
  let p := randintAt src minV maxV s
  (shrinkIntegral p.1 minV maxV, p.2)

/-!
## `generator/transform.py`
-/

/-- `FilteredGenerator._filter_shrinks` (transform.py:61-74): iterate the
original candidate stream and keep, unchanged, each candidate whose value
satisfies the predicate.  The kept candidates retain their original child
streams. -/
def filterShrinks (p : α → Bool) (shrinkable : Shrinkable α) : List (Shrinkable α) :=
  shrinkable.children.filter (fun candidate => p candidate.value)

/-- `FilteredGenerator.generate` (transform.py:49-59): up to
`max_attempts` samples of the underlying generator; the first sample whose
value satisfies the predicate is returned with its first-level candidates
filtered; exhaustion raises (`ValueError`, the spec's `DomainError`),
modelled as `Except.error`. -/
def filteredGenerate (g : Gen α) (p : α → Bool) :
    ℕ → RandomSource → ℕ → Except Unit (Shrinkable α × ℕ)
  | 0, _, _ => .error ()
  | attempts + 1, src, s =>
    let pr := g src s
    if p pr.1.value then .ok (.mk pr.1.value (filterShrinks p pr.1), pr.2)
    else filteredGenerate g p attempts src pr.2

/-- The result of `FlatMappedGenerator.generate` (transform.py:86-107).
The Python `shrink_func` closure captures the *live, shared* `rng` object:
the regeneration draws happen at the random-source position current when
the stream is forced.  `force` therefore maps the draw position at forcing
time to the forced candidate list and the advanced position. -/
structure FlatMapResult (β : Type) where
  value : β
  force : ℕ → List (Shrinkable β) × ℕ

/-- `FlatMappedGenerator.generate` (transform.py:86-107): sample the base
generator, feed its value to `func`, sample the dependent generator; the
candidate stream is, at forcing time, the dependent sample's own
candidates (base held fixed) followed by, for each base shrink, a freshly
regenerated dependent `Shrinkable` drawn from the random source *at the
position current when the stream is forced*. -/
def flatMapGenerate (g : Gen α) (f : α → Gen β) (src : RandomSource) (s : ℕ) :
    FlatMapResult β × ℕ :=
  let first := g src s
  let second := f first.1.value src first.2
  (⟨second.1.value, fun st =>
      let firstShrinks := first.1.children.foldl
        (fun (acc : List (Shrinkable β) × ℕ) firstShrink =>
          let regen := f firstShrink.value src acc.2
          (acc.1 ++ [regen.1], regen.2))
        ([], st)
      (second.1.children ++ firstShrinks.1, firstShrinks.2)⟩,
    second.2)

/-!
## `core/shrinker.py`: `shrinkable_float`

Python floats are modelled as an inductive of the four categories the code
distinguishes (`nan`, `+inf`, `-inf`, finite), finite values carried as
exact rationals.  Every operation `shrinkable_float` performs on a float —
`== 0.0`, `isnan`, `== ±inf`, `abs(...) > 1.0`, `/ 2`, `floor`, integer
comparison — is exact on IEEE doubles in the ranges the claims exercise,
so the rational model is faithful there.
-/

/-- A Python float: NaN, +infinity, -infinity, or a finite value. -/
inductive PyFloat : Type
  | nan
  | inf
  | ninf
  | fin (q : ℚ)
deriving DecidableEq, Repr

/-- `sys.float_info.max`: the largest finite IEEE double,
`(2^53 - 1) * 2^971`. -/
def floatInfoMax : ℚ := (2 ^ 53 - 1) * 2 ^ 971

/-- `sys.float_info.min`: the smallest *positive* normalized IEEE double,
`2^(-1022)`.  Note: this is a tiny positive number, not the most negative
float. -/
def floatInfoMin : ℚ := 1 / 2 ^ 1022

/-- The candidate values built by `shrinkable_float_stream`
(core/shrinker.py:182-210): `[]` for `0.0`; `[0.0]` for NaN; for `+inf`,
`0.0` then `sys.float_info.max`; for `-inf`, `0.0` then
`sys.float_info.min`; for other finite values, `0.0` first, then `value/2`
and `-value/2` when `abs(value) > 1.0`, then the integer truncation toward
zero when it is nonzero and strictly smaller in magnitude. -/
def floatShrinkCandidates : PyFloat → List PyFloat
  | .nan => [.fin 0]
  | .inf => [.fin 0, .fin floatInfoMax]
  | .ninf => [.fin 0, .fin floatInfoMin]
  | .fin q =>
    if q = 0 then []
    else
      let intVal : ℤ := if 0 < q then ⌊q⌋ else ⌊q⌋ + 1
      [PyFloat.fin 0]
        ++ (if 1 < |q| then [PyFloat.fin (q / 2), PyFloat.fin (-q / 2)] else [])
        ++ (if intVal ≠ 0 ∧ |(intVal : ℚ)| < |q| then [PyFloat.fin (intVal : ℚ)]
            else [])

/-- `shrinkable_float` (core/shrinker.py:171-212): the value with the
candidate stream above; each candidate is built as `Shrinkable(x)` with no
children of its own. -/
def shrinkableFloat (value : PyFloat) : Shrinkable PyFloat :=
  .mk value ((floatShrinkCandidates value).map (fun c => .mk c []))

/-!
## `shrinker/list.py`: `shrink_membership_wise`

The element type is opaque to the function (Python passes
`List[Shrinkable[T]]` and only slices it), so it is embedded over an
arbitrary `α`.
-/

/-- The candidate list built by `generate_shrinks` inside
`shrink_membership_wise` (shrinker/list.py:169-189): the empty list (when
`min_size == 0` and the list is nonempty), then the prefixes
`elems[:i]` for `i` from `len-1` down to `min_size`, then the suffixes
`elems[i:]` for `i` from `1` to `len - min_size`.  Every candidate is
built as `Shrinkable(...)` with no children. -/
def membershipShrinks (elems : List α) (minSize : ℕ) : List (Shrinkable (List α)) :=
  (if minSize = 0 ∧ 0 < elems.length then [Shrinkable.mk [] []] else [])
    ++ ((List.range (elems.length - minSize)).map
          (fun j => elems.length - 1 - j)).filterMap
        (fun i => if minSize ≤ i then some (Shrinkable.mk (elems.take i) [])
          else none)
    ++ ((List.range (elems.length - minSize)).map (fun j => j + 1)).filterMap
        (fun i => if minSize ≤ elems.length - i
          then some (Shrinkable.mk (elems.drop i) []) else none)

/-- `shrink_membership_wise` (shrinker/list.py:154-193): the element list
with the membership candidates as its stream. -/
def shrinkMembershipWise (elems : List α) (minSize : ℕ) : Shrinkable (List α) :=
  .mk elems (membershipShrinks elems minSize)

/-!
## `shrinker/pair.py`, `generator/list.py`, `generator/dict.py`
-/

/-- `shrink_pair` (shrinker/pair.py:15-48): the pair of the two root
values; candidates are, in order, each first-component shrink paired with
the fixed second value, then the fixed first value paired with each
second-component shrink — every candidate built as `Shrinkable((...))`
with no children. -/
def shrinkPair (first : Shrinkable α) (second : Shrinkable β) :
    Shrinkable (α × β) :=
  .mk (first.value, second.value)
    ((first.children.map (fun firstShrink =>
        Shrinkable.mk (firstShrink.value, second.value) []))
      ++ (second.children.map (fun secondShrink =>
        Shrinkable.mk (first.value, secondShrink.value) [])))

/-- `ListGenerator._generate_shrinks` (generator/list.py:31-57): empty
list, list without its last element, list without its first element, then
for each position every element-shrink substituted in place — every
candidate built as `Shrinkable([...])` with no children. -/
def listGenShrinks (elements : List (Shrinkable α)) : List (Shrinkable (List α)) :=
  (if 0 < elements.length then [Shrinkable.mk [] []] else [])
    ++ (if 1 < elements.length then
          [Shrinkable.mk (elements.dropLast.map Shrinkable.value) [],
           Shrinkable.mk (elements.tail.map Shrinkable.value) []]
        else [])
    ++ elements.enum.flatMap (fun ie =>
        ie.2.children.map (fun shrunk =>
          Shrinkable.mk ((elements.set ie.1 shrunk).map Shrinkable.value) []))

/-- `DictGenerator._generate_shrinks` (generator/dict.py:42-70).  The
Python dict value is modelled as the ordered association list of sampled
`(key, value)` pairs (key iteration order is insertion order; the claims
do not depend on duplicate-key collapsing).  Candidates: empty dict, dict
without the last item, dict without the first item, then for each item
every value-shrink substituted with the key kept — every candidate built
as `Shrinkable({...})` with no children. -/
def dictGenShrinks (items : List (Shrinkable α × Shrinkable β)) :
    List (Shrinkable (List (α × β))) :=
  (if 0 < items.length then [Shrinkable.mk [] []] else [])
    ++ (if 1 < items.length then
          [Shrinkable.mk (items.dropLast.map (fun kv => (kv.1.value, kv.2.value))) [],
           Shrinkable.mk (items.tail.map (fun kv => (kv.1.value, kv.2.value))) []]
        else [])
    ++ items.enum.flatMap (fun ikv =>
        ikv.2.2.children.map (fun shrunkValue =>
          Shrinkable.mk ((items.set ikv.1 (ikv.2.1, shrunkValue)).map
            (fun kv => (kv.1.value, kv.2.value))) []))

/-!
## `generator/combinators.py`: `one_of` / `element_of`
-/

/-- Modelled from the spec (§3 `WeightedOption`, whose normalization lives
in `generator/base.py`, not under `src/`): a generator option paired with
its weight in (0,1]. -/
structure WeightedGen (α : Type) where
  gen : Gen α
  weight : ℚ

/-- Modelled from the spec (§3 `WeightedOption`): a literal value paired
with its weight in (0,1]. -/
structure WeightedValue (α : Type) where
  value : α
  weight : ℚ

/-- `OneOfGenerator.generate` (combinators.py:27-33): loop — draw
`dice = randint(0, len-1)` (one integer draw, uniform over the full option
list), then one fresh float draw; accept the indexed option exactly when
the float is strictly below its weight, delegating to that option's
generator; otherwise redraw.  The unbounded `while True` is modelled with
`fuel`; an out-of-range index (possible only for an empty option list,
which the constructor rejects) is modelled as `none`. -/
def oneOfGenerate (gens : List (WeightedGen α)) :
    ℕ → RandomSource → ℕ → Option (Shrinkable α × ℕ)
  | 0, _, _ => none
  | fuel + 1, src, s =>
    let dice := src.ints s % gens.length
    match gens[dice]? with
    | none => none
    | some wg =>
      if src.floats (s + 1) < wg.weight then some (wg.gen src (s + 2))
      else oneOfGenerate gens fuel src (s + 2)

/-- `ElementOfGenerator.generate` (combinators.py:44-57): the same
rejection-sampling loop over literal values; on acceptance the value is
returned with the other distinct values as childless shrink candidates. -/
def elementOfGenerate [DecidableEq α] (vals : List (WeightedValue α)) :
    ℕ → RandomSource → ℕ → Option (Shrinkable α × ℕ)
  | 0, _, _ => none
  | fuel + 1, src, s =>
    let dice := src.ints s % vals.length
    match vals[dice]? with
    | none => none
    | some wv =>
      if src.floats (s + 1) < wv.weight then
        some (.mk wv.value ((vals.filter (fun w => w.value ≠ wv.value)).map
          (fun w => Shrinkable.mk w.value [])), s + 2)
      else elementOfGenerate vals fuel src (s + 2)

/-!
## `core/property.py`
-/

mutual
/-- The `while improved` loop of `Property._shrink_failing_inputs`
(property.py:182-193): scan the current node's candidate stream for the
first candidate on which the property still fails; if found, adopt it
(value and children) as the new current node and repeat; otherwise return
the current value. -/
def minimizeLoop (failing : α → Bool) : Shrinkable α → α
  | .mk v cs => minimizeScan failing v cs
/-- One scan of the candidate stream inside `minimizeLoop`. -/
def minimizeScan (failing : α → Bool) (v : α) : List (Shrinkable α) → α
  | [] => v
  | c :: cs =>
    if failing c.value then minimizeLoop failing c else minimizeScan failing v cs
end

/-- The per-argument loop of `Property._shrink_failing_inputs`
(property.py:172-195): for each position, *regenerate* a `Shrinkable` from
the current random-source position, overwrite its value with the observed
failing input (`shrinkable.value = input_val`) while keeping the
regenerated candidate stream, then run the greedy minimize loop; earlier
positions use their so-far-minimized values, later positions the original
failing inputs. -/
def sfiGo (propFunc : List α → Bool) (src : RandomSource) :
    List α → List (α × Gen α) → ℕ → List α × ℕ
  | shrunk, [], s => (shrunk, s)
  | shrunk, (input, g) :: rest, s =>
    let pr := g src s
    let node := Shrinkable.mk input pr.1.children
    let failing := fun v => ! propFunc (shrunk ++ v :: rest.map Prod.fst)
    sfiGo propFunc src (shrunk ++ [minimizeLoop failing node]) rest pr.2

/-- `Property._shrink_failing_inputs` (property.py:156-197).  The
`property_predicate` wrapper treats an exception as failure; predicates
are embedded as pure `Bool` functions. -/
def shrinkFailingInputs (propFunc : List α → Bool) (inputs : List α)
    (gens : List (Gen α)) (src : RandomSource) (s : ℕ) : List α :=
  if inputs.length ≠ gens.length then inputs
  else (sfiGo propFunc src [] (inputs.zip gens) s).1

/-- Outcome of one `Property.for_all` invocation (property.py:81-154). -/
inductive RunOutcome (α : Type) : Type
  | noGenerators
  | pass
  | exampleFail (inputs : List α)
  | trialFail (failingInputs minimalInputs : List α)
deriving Repr

/-- The fixed-example phase of `Property.for_all` (property.py:97-118):
examples whose length differs from the generator count are skipped with
`continue`; otherwise the property is invoked on the example, and a falsy
result raises immediately, the example being both failing and minimal
input.  Returns the first failing example (if any) together with the
ordered list of example tuples actually passed to the property. -/
def examplesPhase (propFunc : List α → Bool) (numGens : ℕ) :
    List (List α) → Option (List α) × List (List α)
  | [] => (none, [])
  | ex :: rest =>
    if ex.length ≠ numGens then examplesPhase propFunc numGens rest
    else if propFunc ex then
      let r := examplesPhase propFunc numGens rest
      (r.1, ex :: r.2)
    else (some ex, [ex])

/-- One trial's input sampling (property.py:124-127): one value per
generator, threading the random source left to right. -/
def generateInputs (src : RandomSource) : List (Gen α) → ℕ → List α × ℕ
  | [], s => ([], s)
  | g :: gs, s =>
    let pr := g src s
    let r := generateInputs src gs pr.2
    (pr.1.value :: r.1, r.2)

/-- The random-trial phase of `Property.for_all` (property.py:121-152):
up to `num_runs` trials; on the first falsy result the failing inputs are
minimized by `_shrink_failing_inputs` (from the random-source position
left after the failing trial) and reported.  Returns the outcome and the
ordered list of input tuples passed to the property. -/
def trialsPhase (propFunc : List α → Bool) (gens : List (Gen α))
    (src : RandomSource) : ℕ → ℕ → RunOutcome α × List (List α)
  | 0, _ => (.pass, [])
  | n + 1, s =>
    let gi := generateInputs src gens s
    if propFunc gi.1 then
      let r := trialsPhase propFunc gens src n gi.2
      (r.1, gi.1 :: r.2)
    else
      (.trialFail gi.1 (shrinkFailingInputs propFunc gi.1 gens src gi.2), [gi.1])

/-- `Property.for_all` (property.py:81-154), together with the ordered
trace of property invocations made by the example and trial phases (the
minimization phase re-invokes the property only on candidate tuples
derived from the failing trial; it receives no examples). -/
def forAllRun (propFunc : List α → Bool) (gens : List (Gen α))
    (examples : List (List α)) (numRuns : ℕ) (src : RandomSource) (s : ℕ) :
    RunOutcome α × List (List α) :=
  if gens.length = 0 then (.noGenerators, [])
  else
    let ex := examplesPhase propFunc gens.length examples
    match ex.1 with
    | some failingExample => (.exampleFail failingExample, ex.2)
    | none =>
      let tr := trialsPhase propFunc gens src numRuns s
      (tr.1, ex.2 ++ tr.2)

/-- Claim C5: Integral shrinking of value 8 over range [0, 100] produces a
shrink tree with root value 8, first-level children with value set
{0, 4, 6, 7} (in order, `[0, 4, 6, 7]`), and the child with value 4
having children with value set {2, 3} (in order, `[2, 3]`) — binary-range
bisection toward the boundary closest to zero. -/
theorem shrinkIntegral_scenario_8_0_100 :
    (shrinkIntegral 8 0 100).value = 8 ∧
    (shrinkIntegral 8 0 100).children.map Shrinkable.value = [0, 4, 6, 7] ∧
    ((shrinkIntegral 8 0 100).children.getD 1 (.mk 0 [])).value = 4 ∧
    ((shrinkIntegral 8 0 100).children.getD 1 (.mk 0 [])).children.map
      Shrinkable.value = [2, 3] := by
  decide

/-!
## Helper lemmas
-/

/-- A property holding for every member of a list and for the default
value holds for any `getD` access. -/
theorem getD_prop {l : List γ} {d : γ} {P : γ → Prop}
    (hl : ∀ x ∈ l, P x) (hd : P d) : ∀ i, P (l.getD i d) := by
  induction l with
  | nil => intro i; simpa [List.getD] using hd
  | cons a t ih =>
    intro i
    cases i with
    | zero => simpa [List.getD] using hl a (List.mem_cons_self a t)
    | succ j =>
      simpa [List.getD] using ih (fun x hx => hl x (List.mem_cons_of_mem _ hx)) j

/-!
## C4: membership-wise shrinking of a 3-element sequence
-/

/-- Claim C4, evaluated at the failing input: membership-wise shrinking of the
3-element sequence `[1, 2, 3]` with `min_size = 0` reaches only **6**
subsequences — the non-contiguous `[1, 3]` and the middle singleton `[2]`
are unreachable by any child-traversal path, so the claimed 8 (= 2³)
subsequences are not attained (every candidate is built childless, so
nothing beyond the first level exists). -/
theorem membershipWise_three_elements_reaches_only_six :
    (Shrinkable.collect (shrinkMembershipWise ([1, 2, 3] : List ℕ) 0)).toFinset
        = {[1, 2, 3], [], [1, 2], [1], [2, 3], [3]} ∧
    (Shrinkable.collect
        (shrinkMembershipWise ([1, 2, 3] : List ℕ) 0)).toFinset.card = 6 ∧
    [1, 3] ∉ Shrinkable.collect (shrinkMembershipWise ([1, 2, 3] : List ℕ) 0) ∧
    [2] ∉ Shrinkable.collect (shrinkMembershipWise ([1, 2, 3] : List ℕ) 0) := by
  decide

/-!
## C6: float shrinking of `-inf`
-/

/-- Claim C6, evaluated at the failing input: for `-inf`, `shrinkable_float`
offers the candidates `[0.0, sys.float_info.min]`, and
`sys.float_info.min` is the smallest *positive* normalized double — a
positive number, not the most negative finite float
(`-sys.float_info.max`). -/
theorem shrinkableFloat_ninf_candidate_is_positive :
    floatShrinkCandidates PyFloat.ninf
        = [PyFloat.fin 0, PyFloat.fin floatInfoMin] ∧
    (shrinkableFloat PyFloat.ninf).children.map Shrinkable.value
        = [PyFloat.fin 0, PyFloat.fin floatInfoMin] ∧
    0 < floatInfoMin ∧ floatInfoMin ≠ -floatInfoMax := by
  have h1 : 0 < floatInfoMin := by unfold floatInfoMin; positivity
  have h2 : 0 < floatInfoMax := by unfold floatInfoMax; norm_num
  refine ⟨rfl, rfl, h1, ?_⟩
  intro h
  rw [h] at h1
  linarith

/-!
## C2: minimization starts from a regenerated, value-overwritten Shrinkable
-/

/-- Random source for the C2 scenario: the failing trial's `randint` draw
yields 8; the regeneration draw made during minimization yields 3. -/
def c2src : RandomSource := ⟨fun s => if s = 0 then 8 else 3, fun _ => 0⟩

/-- The property of the C2 scenario: holds exactly when the single
argument is below 4, so 4 is the minimal failing value. -/
def c2prop : List ℤ → Bool := fun xs => decide (xs.getD 0 0 < 4)

/-- Claim C2, evaluated at the failing input: the trial generated from
position 0 yields the failing input 8 whose trial `Shrinkable` is the
integral tree of 8; `_shrink_failing_inputs` then *regenerates* from the
advanced position (draw 3, candidates {0, 1, 2}, none of which fails) and
returns `[8]` unshrunk — whereas the greedy minimize loop started from the
Shrinkable produced in the failing trial reaches the true minimum 4. -/
theorem shrinkFailingInputs_regenerates_and_misses_minimum :
    (generateInputs c2src [intGen 0 100] 0).1 = [8] ∧
    (generateInputs c2src [intGen 0 100] 0).2 = 1 ∧
    c2prop [8] = false ∧
    (intGen 0 100 c2src 0).1 = shrinkIntegral 8 0 100 ∧
    ((intGen 0 100 c2src 1).1.children.map Shrinkable.value = [0, 1, 2]) ∧
    shrinkFailingInputs c2prop [8] [intGen 0 100] c2src 1 = [8] ∧
    minimizeLoop (fun v => ! c2prop [v]) (shrinkIntegral 8 0 100) = 4 := by
  refine ⟨rfl, rfl, rfl, rfl, rfl, rfl, rfl⟩

/-!
## C1: flat_map regeneration reads the live random source at forcing time
-/

/-- Random source for the C1 scenario: base draw 8, dependent draw 5, then
raw draws equal to their position. -/
def c1src : RandomSource :=
  ⟨fun s => if s = 0 then 8 else if s = 1 then 5 else s, fun _ => 0⟩

/-- The sampling of `int(0,100).flat_map(fun n => int(0,n))` from
position 0 under `c1src`. -/
def c1res : FlatMapResult ℤ × ℕ :=
  flatMapGenerate (intGen 0 100) (fun n => intGen 0 n) c1src 0

/-- Claim C1, evaluated at the failing input: after sampling base 8 and
dependent 5 (positions 0 and 1), forcing the shrink stream from the
position left after generation regenerates dependent values
`[0, 3, 4, 5]` for the four base shrinks, but forcing it *again* (the
random source having advanced) regenerates `[0, 2, 1, 1]` — regeneration
reads the live random source at forcing time, so it is not a pure function
of the seed and the shrunk base value, and depends on when and how often
the stream is forced. -/
theorem flatMap_regeneration_depends_on_forcing_time :
    c1res.2 = 2 ∧ c1res.1.value = 5 ∧
    (c1res.1.force 2).1.map Shrinkable.value = [0, 2, 3, 4, 0, 3, 4, 5] ∧
    (c1res.1.force 2).2 = 6 ∧
    (c1res.1.force 6).1.map Shrinkable.value = [0, 2, 3, 4, 0, 2, 1, 1] ∧
    (c1res.1.force 2).1.map Shrinkable.value
      ≠ (c1res.1.force 6).1.map Shrinkable.value := by
  refine ⟨rfl, rfl, rfl, rfl, rfl, ?_⟩
  decide

/-!
## C3: filtering is applied only to the first level
-/

/-- Random source for the C3 scenario: every integer draw yields 8. -/
def c3src : RandomSource := ⟨fun _ => 8, fun _ => 0⟩

/-- The evenness predicate of the C3 scenario. -/
def c3pred : ℤ → Bool := fun v => decide (v % 2 = 0)

/-- The tree produced by `int(0,100).filter(even).generate` in the C3
scenario. -/
def c3tree : Shrinkable ℤ :=
  ((filteredGenerate (intGen 0 100) c3pred 100 c3src 0).toOption.getD
    (Shrinkable.mk 0 [], 0)).1

/-- Claim C3, counterexample: the tree generated by `int(0,100).filter(even)`
from a draw of 8 contains the node value 3 — the even first-level
candidate 4 keeps its original children `[2, 3]` unfiltered — and 3 fails
the predicate, so it is not the case that every node at every depth
satisfies it. -/
theorem filtered_tree_contains_odd_grandchild :
    (3 : ℤ) ∈ c3tree.collect ∧ c3pred 3 = false := by
  refine ⟨?_, rfl⟩
  decide

/-- Claim C3, amended: `G.filter(p).generate` yields a tree whose root value and
whose *first-level* shrink candidates all satisfy `p`; candidates keep
their original subtrees, so the guarantee stops at the first level. -/
theorem filteredGenerate_root_and_first_level_satisfy
    (g : Gen α) (p : α → Bool) (n : ℕ) (src : RandomSource) (s : ℕ)
    (shr : Shrinkable α) (st : ℕ)
    (h : filteredGenerate g p n src s = .ok (shr, st)) :
    p shr.value = true ∧
    ∀ i, p ((shr.children.getD i (Shrinkable.mk shr.value [])).value) = true := by
  induction n generalizing s with
  | zero => simp [filteredGenerate] at h
  | succ n ih =>
    rw [filteredGenerate] at h
    by_cases hp : p (g src s).1.value = true
    · simp only [hp, if_true] at h
      obtain ⟨hshr, -⟩ := Prod.mk.injEq .. ▸ Except.ok.inj h
      subst hshr
      refine ⟨by simpa using hp, ?_⟩
      simp only [Shrinkable.children_mk, Shrinkable.value_mk]
      refine getD_prop (P := fun c : Shrinkable α => p c.value = true) ?_
        (by simpa using hp)
      intro c hc
      simp only [filterShrinks, Shrinkable.children_mk] at hc
      have hcp := List.of_mem_filter hc
      simpa using hcp
    · simp only [hp, if_false] at h
      exact ih _ h

/-- Witness for the amended C3 theorem, at the concrete scenario of the
counterexample. -/
theorem filteredGenerate_root_and_first_level_satisfy_witness :
    filteredGenerate (intGen 0 100) c3pred 100 c3src 0 = .ok (c3tree, 1) ∧
    (c3pred c3tree.value = true ∧
      ∀ i, c3pred ((c3tree.children.getD i
        (Shrinkable.mk c3tree.value [])).value) = true) := by
  have h : filteredGenerate (intGen 0 100) c3pred 100 c3src 0
      = .ok (c3tree, 1) := rfl
  exact ⟨h, filteredGenerate_root_and_first_level_satisfy _ _ _ _ _ _ _ h⟩

/-!
## C9: one-level shrink trees from the pair/list/dict candidate builders
-/

/-- Claim C9: every candidate produced by `shrink_pair`, by
`ListGenerator._generate_shrinks`, and by `DictGenerator._generate_shrinks`
carries an empty child stream — the shrink trees these components produce
are exactly one level deep — and the greedy minimize loop, applied at a
childless node (such as an adopted candidate), immediately returns its
value, so no further shrinking of that position is possible. -/
theorem pair_list_dict_candidates_childless
    (a : Shrinkable α) (b : Shrinkable β)
    (elements : List (Shrinkable α))
    (items : List (Shrinkable α × Shrinkable β)) :
    (∀ i, ((shrinkPair a b).children.getD i
        (Shrinkable.mk (a.value, b.value) [])).children = []) ∧
    (∀ i, ((listGenShrinks elements).getD i
        (Shrinkable.mk [] [])).children = []) ∧
    (∀ i, ((dictGenShrinks items).getD i
        (Shrinkable.mk [] [])).children = []) ∧
    (∀ (failing : γ → Bool) (v : γ),
        minimizeLoop failing (Shrinkable.mk v []) = v) := by
  refine ⟨?_, ?_, ?_, fun failing v => rfl⟩
  · refine getD_prop (P := fun c : Shrinkable (α × β) => c.children = []) ?_ rfl
    intro c hc
    simp only [shrinkPair, Shrinkable.children_mk, List.mem_append,
      List.mem_map] at hc
    rcases hc with ⟨x, -, rfl⟩ | ⟨x, -, rfl⟩ <;> rfl
  · refine getD_prop (P := fun c : Shrinkable (List α) => c.children = []) ?_ rfl
    intro c hc
    simp only [listGenShrinks, List.mem_append, List.mem_flatMap,
      List.mem_map] at hc
    rcases hc with (hc | hc) | ⟨x, -, y, -, rfl⟩
    · split at hc
      · rcases List.mem_singleton.1 hc with rfl
        rfl
      · exact absurd hc (List.not_mem_nil c)
    · split at hc
      · simp only [List.mem_cons, List.not_mem_nil, or_false] at hc
        rcases hc with rfl | rfl
        · rfl
        · rfl
      · exact absurd hc (List.not_mem_nil c)
    · rfl
  · refine getD_prop (P := fun c : Shrinkable (List (α × β)) => c.children = [])
      ?_ rfl
    intro c hc
    simp only [dictGenShrinks, List.mem_append, List.mem_flatMap,
      List.mem_map] at hc
    rcases hc with (hc | hc) | ⟨x, -, y, -, rfl⟩
    · split at hc
      · rcases List.mem_singleton.1 hc with rfl
        rfl
      · exact absurd hc (List.not_mem_nil c)
    · split at hc
      · simp only [List.mem_cons, List.not_mem_nil, or_false] at hc
        rcases hc with rfl | rfl
        · rfl
        · rfl
      · exact absurd hc (List.not_mem_nil c)
    · rfl

/-!
## C10: mismatched fixed examples are silently skipped
-/

/-- Skipping is invisible: the example phase of `for_all` behaves
identically on an example list and on its restriction to the tuples whose
length matches the generator count. -/
theorem examplesPhase_filter (propFunc : List α → Bool) (numGens : ℕ)
    (exs : List (List α)) :
    examplesPhase propFunc numGens
        (exs.filter (fun e => e.length = numGens))
      = examplesPhase propFunc numGens exs := by
  induction exs with
  | nil => rfl
  | cons ex rest ih =>
    by_cases h : ex.length = numGens
    · rw [List.filter_cons_of_pos (by simpa using h)]
      simp only [examplesPhase, h, ih]
    · rw [List.filter_cons_of_neg (by simpa using h)]
      simp only [examplesPhase, h, ih, if_neg]
      simp [h]

/-- When no example fails, the example phase invokes the property on
exactly the matching-length examples, in order. -/
theorem examplesPhase_none_trace (propFunc : List α → Bool) (numGens : ℕ)
    (exs : List (List α))
    (h : (examplesPhase propFunc numGens exs).1 = none) :
    (examplesPhase propFunc numGens exs).2
      = exs.filter (fun e => e.length = numGens) := by
  induction exs with
  | nil => rfl
  | cons ex rest ih =>
    by_cases hl : ex.length = numGens
    · rw [List.filter_cons_of_pos (by simpa using hl)]
      by_cases hp : propFunc ex = true
      · have h' : (examplesPhase propFunc numGens rest).1 = none := by
          rw [examplesPhase] at h
          simpa [hl, hp] using h
        rw [examplesPhase]
        simp [hl, hp, ih h']
      · exfalso
        rw [examplesPhase] at h
        simp [hl, hp] at h
    · rw [List.filter_cons_of_neg (by simpa using hl)]
      have h' : (examplesPhase propFunc numGens rest).1 = none := by
        rw [examplesPhase] at h
        simpa [hl] using h
      rw [examplesPhase]
      simp [hl, ih h']

/-- Claim C10: a fixed example tuple whose length differs from the generator
count is silently skipped: `for_all` produces the same outcome and the
same property-invocation trace as with all such tuples removed (so the
tuple is never passed to the property, raises nothing, and has no
effect); and when no example fails, the invocation trace is exactly the
matching-length examples, in order, followed by the random-trial
inputs. -/
theorem forAll_skips_mismatched_examples
    (propFunc : List α → Bool) (gens : List (Gen α))
    (examples : List (List α)) (numRuns : ℕ) (src : RandomSource) (s : ℕ) :
    forAllRun propFunc gens examples numRuns src s
      = forAllRun propFunc gens
          (examples.filter (fun e => e.length = gens.length)) numRuns src s ∧
    (0 < gens.length →
      (examplesPhase propFunc gens.length examples).1 = none →
      (forAllRun propFunc gens examples numRuns src s).2
        = examples.filter (fun e => e.length = gens.length)
            ++ (trialsPhase propFunc gens src numRuns s).2) := by
  constructor
  · unfold forAllRun
    rw [examplesPhase_filter]
  · intro hlen hnone
    unfold forAllRun
    rw [if_neg (by omega)]
    simp only [hnone]
    rw [examplesPhase_none_trace propFunc gens.length examples hnone]

/-- Witness for the C10 theorem: one generator, examples `[[5]]`,
`[[1, 2]]` (wrong length, skipped) and `[[]]` (wrong length, skipped),
an always-true property. -/
theorem forAll_skips_mismatched_examples_witness :
    (forAllRun (fun _ => true) [intGen 0 10] [[5], [1, 2], []] 1
        (RandomSource.mk (fun _ => 0) (fun _ => 0)) 0
      = forAllRun (fun _ => true) [intGen 0 10]
          ([[5], [1, 2], []].filter
            (fun e => e.length = [intGen 0 10].length)) 1
          (RandomSource.mk (fun _ => 0) (fun _ => 0)) 0) ∧
    (0 < [intGen 0 10].length ∧
      (examplesPhase (fun _ => true) [intGen 0 10].length
        [[5], [1, 2], []]).1 = none ∧
      (forAllRun (fun _ => true) [intGen 0 10] [[5], [1, 2], []] 1
          (RandomSource.mk (fun _ => 0) (fun _ => 0)) 0).2
        = [[5], [1, 2], []].filter (fun e => e.length = [intGen 0 10].length)
            ++ (trialsPhase (fun _ => true) [intGen 0 10]
                (RandomSource.mk (fun _ => 0) (fun _ => 0)) 1 0).2) := by
  have h := forAll_skips_mismatched_examples (fun _ => true) [intGen 0 10]
    [[5], [1, 2], []] 1 (RandomSource.mk (fun _ => 0) (fun _ => 0)) 0
  exact ⟨h.1, by decide, rfl, h.2 (by decide) rfl⟩

/-!
## C7: filter retries and the domain error
-/

/-- The random-source position before the `k`-th successive sample of `g`
starting from position `s`. -/
def stateN (g : Gen α) (src : RandomSource) (s : ℕ) : ℕ → ℕ
  | 0 => s
  | k + 1 => (g src (stateN g src s k)).2

/-- The `k`-th successive sample of `g` starting from position `s`. -/
def sampleN (g : Gen α) (src : RandomSource) (s : ℕ) (k : ℕ) : Shrinkable α :=
  (g src (stateN g src s k)).1

theorem stateN_shift (g : Gen α) (src : RandomSource) (s : ℕ) (k : ℕ) :
    stateN g src s (k + 1) = stateN g src (g src s).2 k := by
  induction k with
  | zero => rfl
  | succ k ih => rw [stateN, ih, stateN]

theorem sampleN_shift (g : Gen α) (src : RandomSource) (s : ℕ) (k : ℕ) :
    sampleN g src s (k + 1) = sampleN g src (g src s).2 k := by
  rw [sampleN, sampleN, stateN_shift]

/-- Claim C7: `FilteredGenerator.generate` raises the domain error exactly when
all `max_attempts` consecutive samples of the underlying generator fail
the predicate; if any of them satisfies it, the result's root is the value
of the *first* satisfying sample (with its first-level candidates
filtered) and the random source is left just past that sample. -/
theorem filteredGenerate_first_satisfying (g : Gen α) (p : α → Bool)
    (n : ℕ) (src : RandomSource) (s : ℕ) :
    filteredGenerate g p n src s =
      match (List.range n).find? (fun k => p (sampleN g src s k).value) with
      | none => .error ()
      | some k => .ok (.mk (sampleN g src s k).value
          (filterShrinks p (sampleN g src s k)), stateN g src s (k + 1)) := by
  induction n generalizing s with
  | zero => rfl
  | succ n ih =>
    rw [filteredGenerate]
    by_cases hp : p (g src s).1.value = true
    · rw [List.range_succ_eq_map]
      have hhead : List.find? (fun k => p (sampleN g src s k).value)
          (0 :: List.map Nat.succ (List.range n)) = some 0 :=
        List.find?_cons_of_pos _ hp
      rw [hhead]
      simp only [hp, if_true]
      rfl
    · rw [List.range_succ_eq_map]
      have hhead : List.find? (fun k => p (sampleN g src s k).value)
          (0 :: List.map Nat.succ (List.range n))
          = List.find? (fun k => p (sampleN g src s k).value)
              (List.map Nat.succ (List.range n)) :=
        List.find?_cons_of_neg _ hp
      rw [hhead, List.find?_map]
      simp only [hp, if_false]
      rw [ih]
      have hpred : ((fun k => p (sampleN g src s k).value) ∘ Nat.succ)
          = (fun k => p (sampleN g src (g src s).2 k).value) := by
        funext k
        simp only [Function.comp]
        rw [← sampleN_shift]
      rw [hpred]
      cases hfind : (List.range n).find?
          (fun k => p (sampleN g src (g src s).2 k).value) with
      | none => rfl
      | some k =>
        simp [sampleN_shift, stateN_shift]

/-!
## C8: rejection sampling in `one_of` / `element_of`
-/

/-- One rejection-sampling round performed at draw position `t`: the
fresh float draw at `t + 1` is strictly below the weight of the option
indexed by the integer draw at `t` (one uniform index over the full
option list). -/
def roundAccepts (weights : List ℚ) (src : RandomSource) (t : ℕ) : Bool :=
  decide (src.floats (t + 1) < weights.getD (src.ints t % weights.length) 0)

theorem getD_map_of_getElem? {δ : Type} {L : List δ} {d : ℕ} {x : δ}
    (w : δ → ℚ) (h : L[d]? = some x) : (L.map w).getD d 0 = w x := by
  rw [List.getD_eq_getD_get?, List.get?_eq_getElem?, List.getElem?_map, h]
  rfl

/-- Any loop of the shape shared by `OneOfGenerator.generate` and
`ElementOfGenerator.generate` — draw one index uniformly over the full
option list, draw one fresh float, accept exactly when the float is
strictly below the indexed option's weight, otherwise repeat two positions
later — terminates at the first accepting round, consuming exactly one
integer and one float draw per round. -/
theorem rejectionLoop_characterization {δ γ : Type} (src : RandomSource)
    (L : List δ) (w : δ → ℚ) (out : δ → ℕ → γ) (f : ℕ → ℕ → Option γ)
    (h0 : ∀ s, f 0 s = none)
    (hstep : ∀ fuel s, f (fuel + 1) s =
      match L[src.ints s % L.length]? with
      | none => none
      | some x =>
        if src.floats (s + 1) < w x then some (out x s) else f fuel (s + 2)) :
    ∀ fuel s, f fuel s =
      match (List.range fuel).find?
          (fun k => roundAccepts (L.map w) src (s + 2 * k)) with
      | none => none
      | some k => (L[src.ints (s + 2 * k) % L.length]?).map
          (fun x => out x (s + 2 * k)) := by
  intro fuel
  induction fuel with
  | zero =>
    intro s
    rw [h0]
    rfl
  | succ fuel ih =>
    intro s
    rw [hstep]
    cases hL : L[src.ints s % L.length]? with
    | none =>
      have hlen : L.length = 0 := by
        by_contra hne
        have hlt : src.ints s % L.length < L.length :=
          Nat.mod_lt _ (Nat.pos_of_ne_zero hne)
        rw [List.getElem?_eq_getElem hlt] at hL
        exact Option.noConfusion hL
      have hLnil : L = [] := List.eq_nil_of_length_eq_zero hlen
      subst hLnil
      cases hfind : (List.range (fuel + 1)).find?
          (fun k => roundAccepts (List.map w []) src (s + 2 * k)) with
      | none => rfl
      | some k => simp
    | some x =>
      have hacc : roundAccepts (L.map w) src s
          = decide (src.floats (s + 1) < w x) := by
        unfold roundAccepts
        rw [List.length_map, getD_map_of_getElem? w hL]
      by_cases haccept : src.floats (s + 1) < w x
      · have hfind : (List.range (fuel + 1)).find?
            (fun k => roundAccepts (L.map w) src (s + 2 * k)) = some 0 := by
          rw [List.range_succ_eq_map]
          refine List.find?_cons_of_pos _ ?_
          show roundAccepts (L.map w) src (s + 2 * 0) = true
          simpa [hacc] using haccept
        rw [hfind]
        simp only [Nat.mul_zero, Nat.add_zero, hL, Option.map_some]
        rw [if_pos haccept]
        rfl
      · have hhead : (List.range (fuel + 1)).find?
            (fun k => roundAccepts (L.map w) src (s + 2 * k))
            = ((List.range fuel).find?
                ((fun k => roundAccepts (L.map w) src (s + 2 * k))
                  ∘ Nat.succ)).map Nat.succ := by
          rw [List.range_succ_eq_map]
          rw [List.find?_cons_of_neg _ (by
            show ¬ roundAccepts (L.map w) src (s + 2 * 0) = true
            simpa [hacc] using haccept)]
          rw [List.find?_map]
        have hred : (match (some x : Option δ) with
            | none => (none : Option γ)
            | some y => if src.floats (s + 1) < w y then some (out y s)
                else f fuel (s + 2)) = f fuel (s + 2) := by
          dsimp only
          exact if_neg haccept
        rw [hred, ih, hhead]
        have hpred : ((fun k => roundAccepts (L.map w) src (s + 2 * k))
            ∘ Nat.succ)
            = (fun k => roundAccepts (L.map w) src (s + 2 + 2 * k)) := by
          funext k
          simp only [Function.comp]
          congr 1
          omega
        rw [hpred]
        cases hfind : (List.range fuel).find?
            (fun k => roundAccepts (L.map w) src (s + 2 + 2 * k)) with
        | none => rfl
        | some k =>
          simp only [Option.map_some, Nat.succ_eq_add_one]
          have harg : s + 2 + 2 * k = s + 2 * (k + 1) := by omega
          rw [harg]
          rfl

/-- Claim C8: selection in `one_of` and `element_of` is rejection sampling —
each round draws one uniform index over the *full* option list, then one
fresh uniform float, accepting the indexed option exactly when the float
is strictly below its weight; a rejected round redraws the index over the
full list two positions later, so every round consumes exactly one integer
draw (position `s + 2k`) and one float draw (position `s + 2k + 1`), and
the loop returns the first accepting round's option. -/
theorem oneOf_elementOf_rejection_sampling {β : Type} [DecidableEq β]
    (gens : List (WeightedGen α)) (vals : List (WeightedValue β))
    (fuel : ℕ) (src : RandomSource) (s : ℕ) :
    (oneOfGenerate gens fuel src s =
      match (List.range fuel).find?
          (fun k => roundAccepts (gens.map WeightedGen.weight) src
            (s + 2 * k)) with
      | none => none
      | some k => (gens[(src.ints (s + 2 * k) % gens.length)]?).map
          (fun wg => wg.gen src (s + 2 * k + 2))) ∧
    (elementOfGenerate vals fuel src s =
      match (List.range fuel).find?
          (fun k => roundAccepts (vals.map WeightedValue.weight) src
            (s + 2 * k)) with
      | none => none
      | some k => (vals[(src.ints (s + 2 * k) % vals.length)]?).map
          (fun wv => (Shrinkable.mk wv.value
            ((vals.filter (fun wv2 => wv2.value ≠ wv.value)).map
              (fun wv2 => Shrinkable.mk wv2.value [])), s + 2 * k + 2))) := by
  constructor
  · exact rejectionLoop_characterization src gens WeightedGen.weight
      (fun wg t => wg.gen src (t + 2)) (fun fuel s => oneOfGenerate gens fuel src s)
      (fun _ => rfl)
      (by
        intro fuel s
        cases hL : gens[src.ints s % gens.length]? with
        | none => simp [oneOfGenerate, hL]
        | some wg => simp [oneOfGenerate, hL])
      fuel s
  · exact rejectionLoop_characterization src vals WeightedValue.weight
      (fun wv t => (Shrinkable.mk wv.value
        ((vals.filter (fun wv2 => wv2.value ≠ wv.value)).map
          (fun wv2 => Shrinkable.mk wv2.value [])), t + 2))
      (fun fuel s => elementOfGenerate vals fuel src s)
      (fun _ => rfl)
      (by
        intro fuel s
        cases hL : vals[src.ints s % vals.length]? with
        | none => simp [elementOfGenerate, hL]
        | some wv => simp [elementOfGenerate, hL])
      fuel s

end PyProptest
